import Mathlib

/-!
Verification of the planning-and-execution core of the multi-agent system
(`src/app.py`): the rule-based planner (`PlannerAgent._analyze_goal`), the
execution loop (`MultiAgentSystem.execute_goal`) and the evaluator
(`MultiAgentSystem.evaluate_goal_satisfaction`), embedded shallowly in Lean.

External task handlers (SpaceX / Weather / News / Crypto / Summarize agents)
perform network I/O; the engine only observes the `AgentResult` each returns,
so they are modelled by an arbitrary behaviour function `Behavior` supplied to
the engine.  The `PlannerAgent`, whose `execute` is pure, is embedded from the
source.  Python values stored in result payloads are opaque to the engine
except for the planner's `"plan"` entry; `PyVal` models exactly the shapes the
embedding needs.
-/

namespace MultiAgent

/-! ### Strings: `str.lower` and the `in` substring test -/

/-- Model of Python `str.lower()` (ASCII-faithful, via `Char.toLower`). -/
def strLower (s : String) : String := ⟨s.data.map Char.toLower⟩

/-- Executable substring search on character lists. -/
def listContains (needle : List Char) : List Char → Bool
  | [] => needle.isEmpty
  | c :: rest => needle.isPrefixOf (c :: rest) || listContains needle rest

/-- Model of Python `needle in hay` on strings. -/
def strContains (hay needle : String) : Bool :=
  listContains needle.data hay.data

/-! ### `PlannerAgent._analyze_goal` (src/app.py lines 91-119) -/

/-- `any(keyword in goal_text for keyword in ["spacex", ...])`. -/
def matchesLaunch (s : String) : Bool :=
  ["spacex", "launch", "rocket", "falcon", "dragon"].any (fun k => strContains s k)

def matchesWeather (s : String) : Bool :=
  ["weather", "temperature", "rain", "storm", "delay"].any (fun k => strContains s k)

def matchesNews (s : String) : Bool :=
  ["news", "article", "report", "update"].any (fun k => strContains s k)

def matchesCrypto (s : String) : Bool :=
  ["bitcoin", "crypto", "btc", "eth", "price"].any (fun k => strContains s k)

def matchesSummarize (s : String) : Bool :=
  ["summarize", "summary", "conclude"].any (fun k => strContains s k)

/-- `PlannerAgent._analyze_goal`: sequential keyword checks building the plan,
terminal summarizer rule, then the default fallback. -/
def analyzeGoal (goal_text : String) : List String :=
  let plan : List String := []
  let plan := if matchesLaunch goal_text then plan ++ ["SpaceXAgent"] else plan
  let plan := if matchesWeather goal_text then plan ++ ["WeatherAgent"] else plan
  let plan := if matchesNews goal_text then plan ++ ["NewsAgent"] else plan
  let plan := if matchesCrypto goal_text then plan ++ ["CryptoAgent"] else plan
  let plan := if plan.length > 1 || matchesSummarize goal_text then plan ++ ["SummarizeAgent"] else plan
  if plan.isEmpty then ["NewsAgent", "SummarizeAgent"] else plan

/-- The domain handlers selected for a (lower-cased) goal text, in the fixed
source order launch, weather, news, market.  Closed form of the first four
steps of `analyzeGoal`. -/
def domainPlan (s : String) : List String :=
  (if matchesLaunch s then ["SpaceXAgent"] else [])
    ++ (if matchesWeather s then ["WeatherAgent"] else [])
    ++ (if matchesNews s then ["NewsAgent"] else [])
    ++ (if matchesCrypto s then ["CryptoAgent"] else [])

/-- The plan produced for a raw goal text: `PlannerAgent.execute` lower-cases
the goal (line 75) before calling `_analyze_goal`. -/
def planOf (goal : String) : List String := analyzeGoal (strLower goal)

/-! ### Python values and dictionaries

The engine never inspects payload values except the planner's `"plan"` entry
(a list of handler names); other values are opaque to it.  `PyVal` covers the
shapes the embedding manipulates. -/

inductive PyVal where
  | vStr (s : String)
  | vStrList (l : List String)
  | vInt (n : Int)
  | vNone
deriving DecidableEq, Repr

/-- Dictionary lookup (first matching key; modelled dictionaries have unique
keys, as Python dicts do). -/
def dictLookup : List (String × PyVal) → String → Option PyVal
  | [], _ => none
  | (k', v) :: rest, k => if k' = k then some v else dictLookup rest k

/-- Python `d[k] = v`: overwrite the entry in place, or append a new one. -/
def dictSet : List (String × PyVal) → String → PyVal → List (String × PyVal)
  | [], k, v => [(k, v)]
  | (k', v') :: rest, k, v =>
    if k' = k then (k, v) :: rest else (k', v') :: dictSet rest k v

/-- Python `d.update(u)`: set every entry of `u` into `d`, in order. -/
def dictUpdate (d u : List (String × PyVal)) : List (String × PyVal) :=
  u.foldl (fun acc p => dictSet acc p.1 p.2) d

abbrev Ctx := List (String × PyVal)

/-! ### Data model (src/app.py lines 21-41) -/

/-- `AgentResult` dataclass (lines 21-28). -/
structure AgentResult where
  agent_name : String
  success : Bool
  data : Ctx
  message : String
  next_agent : Option String
deriving DecidableEq, Repr

/-- `Goal` dataclass (lines 30-41); `results` defaults to `[]` via
`__post_init__`. -/
structure Goal where
  description : String
  plan : List String
  current_step : Nat
  results : List AgentResult
  is_complete : Bool
deriving DecidableEq, Repr

/-! ### PlannerAgent.execute (src/app.py lines 73-89) -/

/-- Decode the string stored under a key, Python `input_data.get("goal", "")`
followed by `.lower()` only ever sees the seeded string in a run. -/
def decodeStr : PyVal → String
  | PyVal.vStr s => s
  | _ => ""

/-- `PlannerAgent.execute`: lower-case the goal, analyze it, return a
successful result carrying the plan. -/
def plannerExecute (input_data : Ctx) : AgentResult :=
  let goal_text := strLower (decodeStr ((dictLookup input_data "goal").getD (PyVal.vStr "")))
  let plan := analyzeGoal goal_text
  { agent_name := "Planner"
    success := true
    data := [("plan", PyVal.vStrList plan),
             ("original_goal", (dictLookup input_data "goal").getD PyVal.vNone)]
    message := "Created execution plan with " ++ toString plan.length ++ " steps"
    next_agent := plan.head? }

/-! ### MultiAgentSystem.execute_goal (src/app.py lines 490-554) -/

/-- Behaviour of the external data-fetching handlers: what `AgentResult` the
named agent returns on the given input context.  These agents perform network
I/O, so the engine is verified for every possible behaviour. -/
abbrev Behavior := String → Ctx → AgentResult

/-- Keys of `self.agents` (lines 494-501). -/
def registryKeys : List String :=
  ["PlannerAgent", "SpaceXAgent", "WeatherAgent", "NewsAgent", "CryptoAgent", "SummarizeAgent"]

/-- Dispatch one agent execution: the planner is embedded from the source,
every other registered agent's outcome is given by the behaviour. -/
def stepAgent (beh : Behavior) (name : String) (ctx : Ctx) : AgentResult :=
  if name = "PlannerAgent" then plannerExecute ctx else beh name ctx

/-- Read `result.data["plan"]` in the planner branch (line 539).  Only the
planner's result is ever decoded, and it always stores a `vStrList`. -/
def decodePlan (data : Ctx) : List String :=
  match dictLookup data "plan" with
  | some (PyVal.vStrList l) => l
  | _ => []

/-- The loop-carried state of `execute_goal`: the `Goal` being built, the
shared context `current_data`, and `current_agent`. -/
structure LoopState where
  goal : Goal
  current_data : Ctx
  current_agent : Option String
deriving DecidableEq, Repr

/-- The `while current_agent and iteration < max_iterations` loop (lines
516-549), with the remaining iteration budget as fuel.  `break` paths return
the state directly. -/
def loop (beh : Behavior) : Nat → LoopState → LoopState
  | 0, st => st
  | Nat.succ fuel, st =>
    match st.current_agent with
    | none => st
    | some name =>
      if registryKeys.contains name then
        let result : AgentResult := stepAgent beh name st.current_data
        let goal1 : Goal := { st.goal with results := st.goal.results ++ [result] }
        if result.success then
          let data1 : Ctx := dictUpdate st.current_data result.data
          if name = "PlannerAgent" ∧ (dictLookup result.data "plan").isSome = true then
            let p : List String := decodePlan result.data
            loop beh fuel
              { goal := { goal1 with plan := p }, current_data := data1,
                current_agent := p.head? }
          else
            if goal1.plan ≠ ([] : List String) ∧ goal1.current_step < goal1.plan.length - 1 then
              loop beh fuel
                { goal := { goal1 with current_step := goal1.current_step + 1 },
                  current_data := data1,
                  current_agent := goal1.plan.get? (goal1.current_step + 1) }
            else
              loop beh fuel
                { goal := goal1, current_data := data1, current_agent := none }
        else
          { goal := goal1, current_data := st.current_data,
            current_agent := st.current_agent }
      else
        st

/-- The state entering the loop: fresh `Goal`, context seeded with the goal
text, planner as the first agent (lines 509-514). -/
def initState (desc : String) : LoopState :=
  { goal := { description := desc, plan := [], current_step := 0, results := [],
              is_complete := false }
    current_data := [("goal", PyVal.vStr desc)]
    current_agent := some "PlannerAgent" }

/-- `MultiAgentSystem.execute_goal` (Python default `max_iterations = 10`):
run the loop, then set `is_complete = current_agent is None` (line 551). -/
def execute_goal (beh : Behavior) (goal_description : String) (max_iterations : Nat) : Goal :=
  let st := loop beh max_iterations (initState goal_description)
  { st.goal with is_complete := st.current_agent.isNone }

/-! ### MultiAgentSystem.evaluate_goal_satisfaction (src/app.py lines 556-574) -/

/-- The evaluation dictionary; the score is modelled in `ℚ` (Python uses a
float, exact here). -/
structure Evaluation where
  goal_satisfied : Bool
  total_agents_executed : Nat
  successful_agents : Nat
  failed_agents : Nat
  agent_trajectory : List String
  final_result : Option AgentResult
  satisfaction_score : ℚ

def evaluate_goal_satisfaction (goal : Goal) : Evaluation :=
  let successful := (goal.results.filter (fun r => r.success)).length
  { goal_satisfied := goal.is_complete
    total_agents_executed := goal.results.length
    successful_agents := successful
    failed_agents := (goal.results.filter (fun r => !r.success)).length
    agent_trajectory := goal.results.map (fun r => r.agent_name)
    final_result := goal.results.getLast?
    satisfaction_score :=
      if goal.results.isEmpty then 0
      else ((successful : ℚ) / (goal.results.length : ℚ)) * 100 }

/-! ### Auxiliary definitions used by the statements -/

/-- Inductive invariant of the loop: the cursor never passes the end of the
plan, the planner only runs with the cursor at 0, and the plan never schedules
the planner. -/
def cursorInv (st : LoopState) : Prop :=
  st.goal.current_step ≤ st.goal.plan.length ∧
  (st.current_agent = some "PlannerAgent" → st.goal.current_step = 0) ∧
  "PlannerAgent" ∉ st.goal.plan

/-- The planner's result on the seeded context of a fresh run. -/
def plannerInitialResult (desc : String) : AgentResult :=
  plannerExecute [("goal", PyVal.vStr desc)]

/-- The loop state right after the first iteration (the planner's). -/
def postPlanState (desc : String) : LoopState :=
  { goal := { description := desc, plan := planOf desc, current_step := 0,
              results := [plannerInitialResult desc], is_complete := false }
    current_data := dictUpdate [("goal", PyVal.vStr desc)] (plannerInitialResult desc).data
    current_agent := (planOf desc).head? }

/-- A dictionary whose keys are pairwise distinct (every Python dict is). -/
abbrev keysNodup (d : Ctx) : Prop := (d.map Prod.fst).Nodup

/-- A behaviour on which every handler invocation succeeds with an empty
payload. -/
def behOK : Behavior :=
  fun n _ => { agent_name := n, success := true, data := [], message := "ok", next_agent := none }

/-- A behaviour on which every handler invocation fails. -/
def behFail : Behavior :=
  fun n _ => { agent_name := n, success := false, data := [], message := "failed", next_agent := none }

/-- A behaviour on which exactly the news handler fails. -/
def behFailNews : Behavior :=
  fun n _ => { agent_name := n, success := if n = "NewsAgent" then false else true,
               data := [], message := "", next_agent := none }

/-- A behaviour whose handlers succeed with the payload `{"a": 2, "b": 3}`. -/
def behPayload : Behavior :=
  fun n _ => { agent_name := n, success := true,
               data := [("a", PyVal.vInt 2), ("b", PyVal.vInt 3)], message := "",
               next_agent := none }

/-- The third example goal of the source's `main`; its plan has 3 steps. -/
def goalBtc : String := "check bitcoin price and get related news"

/-- A finished goal with three invoked handlers of which two succeeded. -/
def demoGoal : Goal :=
  { description := "demo", plan := ["A", "B", "C"], current_step := 2,
    results :=
      [{ agent_name := "A", success := true, data := [], message := "", next_agent := none },
       { agent_name := "B", success := true, data := [], message := "", next_agent := none },
       { agent_name := "C", success := false, data := [], message := "", next_agent := none }],
    is_complete := false }

/-- A goal with no invoked handler. -/
def emptyGoal : Goal :=
  { description := "empty", plan := [], current_step := 0, results := [], is_complete := false }

/-- A mid-run state used to exercise one `EXECUTING` iteration. -/
def mergeDemoState : LoopState :=
  { goal := { description := "g", plan := ["NewsAgent"], current_step := 0, results := [],
              is_complete := false }
    current_data := [("goal", PyVal.vStr "g"), ("a", PyVal.vInt 1)]
    current_agent := some "NewsAgent" }

/-! ## Lemmas about the substring test -/

theorem isPrefixOf_iff_exists (n h : List Char) :
    n.isPrefixOf h = true ↔ ∃ t, h = n ++ t := by
  induction n generalizing h with
  | nil => simp [List.isPrefixOf]
  | cons c cs ih =>
    cases h with
    | nil => simp [List.isPrefixOf]
    | cons d ds =>
      simp only [List.isPrefixOf, Bool.and_eq_true, beq_iff_eq, ih, List.cons_append,
        List.cons.injEq]
      constructor
      · rintro ⟨rfl, t, rfl⟩
        exact ⟨t, rfl, rfl⟩
      · rintro ⟨t, rfl, rfl⟩
        exact ⟨rfl, t, rfl⟩

theorem listContains_iff (n h : List Char) :
    listContains n h = true ↔ ∃ u v, h = u ++ n ++ v := by
  induction h with
  | nil =>
    cases n with
    | nil => simp [listContains, List.isEmpty]
    | cons c cs =>
      simp only [listContains, List.isEmpty]
      constructor
      · intro hfalse
        cases hfalse
      · rintro ⟨u, v, huv⟩
        exact absurd huv.symm (by simp)
  | cons c rest ih =>
    simp only [listContains, Bool.or_eq_true, isPrefixOf_iff_exists, ih]
    constructor
    · rintro (⟨t, ht⟩ | ⟨u, v, huv⟩)
      · exact ⟨[], t, by simpa using ht⟩
      · exact ⟨c :: u, v, by simp [huv]⟩
    · rintro ⟨u, v, huv⟩
      cases u with
      | nil =>
        exact Or.inl ⟨v, by simpa using huv⟩
      | cons c' u' =>
        simp only [List.cons_append, List.cons.injEq] at huv
        exact Or.inr ⟨u', v, huv.2⟩

/-- If the lower-casing of `n` starts with `m`, any string containing `n`
has `m` contained in its lower-casing. -/
theorem listContains_lower (s : String) (n m w : List Char)
    (hsplit : n.map Char.toLower = m ++ w)
    (hc : listContains n s.data = true) :
    listContains m (strLower s).data = true := by
  obtain ⟨u, v, huv⟩ := (listContains_iff n s.data).mp hc
  refine (listContains_iff m (strLower s).data).mpr
    ⟨u.map Char.toLower, w ++ v.map Char.toLower, ?_⟩
  show (String.mk (s.data.map Char.toLower)).data = _
  simp [huv, hsplit]

/-! ## Lemmas about the planner -/

/-- Closed form of `analyzeGoal`: the four domain checks produce
`domainPlan`, then the summarizer rule, then the default fallback. -/
theorem analyzeGoal_eq (s : String) :
    analyzeGoal s =
      (if ((domainPlan s).length > 1 || matchesSummarize s) = true
        then (if (domainPlan s ++ ["SummarizeAgent"]).isEmpty = true
          then ["NewsAgent", "SummarizeAgent"] else domainPlan s ++ ["SummarizeAgent"])
        else (if (domainPlan s).isEmpty = true
          then ["NewsAgent", "SummarizeAgent"] else domainPlan s)) := by
  by_cases h1 : matchesLaunch s <;> by_cases h2 : matchesWeather s <;>
    by_cases h3 : matchesNews s <;> by_cases h4 : matchesCrypto s <;>
      by_cases h5 : matchesSummarize s <;>
        simp [analyzeGoal, domainPlan, h1, h2, h3, h4, h5]

theorem analyzeGoal_ne_nil (s : String) : analyzeGoal s ≠ [] := by
  rw [analyzeGoal_eq]
  split
  · split
    · simp
    · simp
  · split
    · simp
    · rename_i hne
      intro hcontra
      rw [hcontra] at hne
      simp at hne

theorem mem_domainPlan_cases (s : String) (a : String) (ha : a ∈ domainPlan s) :
    a = "SpaceXAgent" ∨ a = "WeatherAgent" ∨ a = "NewsAgent" ∨ a = "CryptoAgent" := by
  by_cases h1 : matchesLaunch s <;> by_cases h2 : matchesWeather s <;>
    by_cases h3 : matchesNews s <;> by_cases h4 : matchesCrypto s <;>
      simp [domainPlan, h1, h2, h3, h4] at ha <;> tauto

theorem mem_analyzeGoal_cases (s : String) (a : String) (ha : a ∈ analyzeGoal s) :
    a = "SpaceXAgent" ∨ a = "WeatherAgent" ∨ a = "NewsAgent" ∨ a = "CryptoAgent" ∨
      a = "SummarizeAgent" := by
  rw [analyzeGoal_eq] at ha
  split at ha
  · split at ha
    · simp at ha
      tauto
    · rw [List.mem_append] at ha
      rcases ha with ha | ha
      · have := mem_domainPlan_cases s a ha
        tauto
      · simp at ha
        tauto
  · split at ha
    · simp at ha
      tauto
    · have := mem_domainPlan_cases s a ha
      tauto

/-- Every plan entry is a key of the agent registry. -/
theorem analyzeGoal_mem_registry (s : String) (a : String) (ha : a ∈ analyzeGoal s) :
    registryKeys.contains a = true := by
  rcases mem_analyzeGoal_cases s a ha with rfl | rfl | rfl | rfl | rfl <;> decide

/-- The planner never schedules itself. -/
theorem planner_not_mem_analyzeGoal (s : String) : "PlannerAgent" ∉ analyzeGoal s := by
  intro ha
  rcases mem_analyzeGoal_cases s _ ha with h | h | h | h | h <;> simp at h

theorem mem_analyzeGoal_of_mem_domainPlan (s : String) (a : String)
    (ha : a ∈ domainPlan s) : a ∈ analyzeGoal s := by
  have hne : domainPlan s ≠ [] := List.ne_nil_of_mem ha
  rw [analyzeGoal_eq]
  split
  · split
    · rename_i hemp
      simp at hemp
    · exact List.mem_append_left _ ha
  · split
    · rename_i hemp
      rw [List.isEmpty_iff] at hemp
      exact absurd hemp hne
    · exact ha

/-! ## Unfolding equations for the execution loop

One equation per way the loop body can go: no fuel, no active agent, unknown
agent (`break` before executing), handler failure (`break` after recording),
the planner branch, cursor advance, and end of plan. -/

theorem loop_zero (beh : Behavior) (st : LoopState) : loop beh 0 st = st := rfl

theorem loop_succ_none (beh : Behavior) (fuel : Nat) (st : LoopState)
    (h : st.current_agent = none) : loop beh (fuel + 1) st = st := by
  simp [loop, h]

theorem loop_succ_unknown (beh : Behavior) (fuel : Nat) (st : LoopState) (name : String)
    (h : st.current_agent = some name) (hreg : registryKeys.contains name = false) :
    loop beh (fuel + 1) st = st := by
  simp only [loop, h, hreg]
  simp

theorem loop_succ_fail (beh : Behavior) (fuel : Nat) (st : LoopState) (name : String)
    (h : st.current_agent = some name) (hreg : registryKeys.contains name = true)
    (hs : (stepAgent beh name st.current_data).success = false) :
    loop beh (fuel + 1) st =
      { goal := { st.goal with results := st.goal.results ++ [stepAgent beh name st.current_data] },
        current_data := st.current_data, current_agent := st.current_agent } := by
  simp only [loop, h, hreg, hs]
  simp [h]

theorem loop_succ_planner (beh : Behavior) (fuel : Nat) (st : LoopState) (name : String)
    (h : st.current_agent = some name) (hreg : registryKeys.contains name = true)
    (hs : (stepAgent beh name st.current_data).success = true)
    (hp : name = "PlannerAgent" ∧
      (dictLookup (stepAgent beh name st.current_data).data "plan").isSome = true) :
    loop beh (fuel + 1) st =
      loop beh fuel
        { goal := { st.goal with
            results := st.goal.results ++ [stepAgent beh name st.current_data],
            plan := decodePlan (stepAgent beh name st.current_data).data },
          current_data := dictUpdate st.current_data (stepAgent beh name st.current_data).data,
          current_agent := (decodePlan (stepAgent beh name st.current_data).data).head? } := by
  simp only [loop, h, hreg, hs, if_true]
  rw [if_pos hp]

theorem loop_succ_advance (beh : Behavior) (fuel : Nat) (st : LoopState) (name : String)
    (h : st.current_agent = some name) (hreg : registryKeys.contains name = true)
    (hs : (stepAgent beh name st.current_data).success = true)
    (hp : ¬(name = "PlannerAgent" ∧
      (dictLookup (stepAgent beh name st.current_data).data "plan").isSome = true))
    (hadv : st.goal.plan ≠ [] ∧ st.goal.current_step < st.goal.plan.length - 1) :
    loop beh (fuel + 1) st =
      loop beh fuel
        { goal := { st.goal with
            results := st.goal.results ++ [stepAgent beh name st.current_data],
            current_step := st.goal.current_step + 1 },
          current_data := dictUpdate st.current_data (stepAgent beh name st.current_data).data,
          current_agent := st.goal.plan.get? (st.goal.current_step + 1) } := by
  simp only [loop, h, hreg, hs, if_true]
  rw [if_neg hp, if_pos hadv]

theorem loop_succ_done (beh : Behavior) (fuel : Nat) (st : LoopState) (name : String)
    (h : st.current_agent = some name) (hreg : registryKeys.contains name = true)
    (hs : (stepAgent beh name st.current_data).success = true)
    (hp : ¬(name = "PlannerAgent" ∧
      (dictLookup (stepAgent beh name st.current_data).data "plan").isSome = true))
    (hadv : ¬(st.goal.plan ≠ [] ∧ st.goal.current_step < st.goal.plan.length - 1)) :
    loop beh (fuel + 1) st =
      loop beh fuel
        { goal := { st.goal with
            results := st.goal.results ++ [stepAgent beh name st.current_data] },
          current_data := dictUpdate st.current_data (stepAgent beh name st.current_data).data,
          current_agent := none } := by
  simp only [loop, h, hreg, hs, if_true]
  rw [if_neg hp, if_neg hadv]

/-! ## Core inductions over the loop -/

/-- Each loop iteration appends at most one result, so the history is bounded
by the iteration budget. -/
theorem loop_results_length_le (beh : Behavior) :
    ∀ (fuel : Nat) (st : LoopState),
      (loop beh fuel st).goal.results.length ≤ st.goal.results.length + fuel := by
  intro fuel
  induction fuel with
  | zero =>
    intro st
    simp [loop_zero]
  | succ n ih =>
    intro st
    cases hag : st.current_agent with
    | none =>
      rw [loop_succ_none beh n st hag]
      omega
    | some name =>
      by_cases hreg : registryKeys.contains name = true
      · by_cases hs : (stepAgent beh name st.current_data).success = true
        · by_cases hp : name = "PlannerAgent" ∧
            (dictLookup (stepAgent beh name st.current_data).data "plan").isSome = true
          · rw [loop_succ_planner beh n st name hag hreg hs hp]
            refine le_trans (ih _) ?_
            simp
            omega
          · by_cases hadv : st.goal.plan ≠ [] ∧
              st.goal.current_step < st.goal.plan.length - 1
            · rw [loop_succ_advance beh n st name hag hreg hs hp hadv]
              refine le_trans (ih _) ?_
              simp
              omega
            · rw [loop_succ_done beh n st name hag hreg hs hp hadv]
              refine le_trans (ih _) ?_
              simp
              omega
        · rw [loop_succ_fail beh n st name hag hreg (by simpa using hs)]
          simp
      · rw [loop_succ_unknown beh n st name hag (by simpa using hreg)]
        omega

/-- A failed record can only ever enter the history at a `break`, which leaves
the active agent set: if the final history holds a failure, the final state
still names an active agent. -/
theorem loop_failure_agent (beh : Behavior) :
    ∀ (fuel : Nat) (st : LoopState),
      (∀ r ∈ st.goal.results, r.success = true) →
      (∀ r ∈ (loop beh fuel st).goal.results, r.success = true) ∨
        (loop beh fuel st).current_agent.isSome = true := by
  intro fuel
  induction fuel with
  | zero =>
    intro st hall
    exact Or.inl (by simpa [loop_zero] using hall)
  | succ n ih =>
    intro st hall
    cases hag : st.current_agent with
    | none =>
      rw [loop_succ_none beh n st hag]
      exact Or.inl hall
    | some name =>
      by_cases hreg : registryKeys.contains name = true
      · by_cases hs : (stepAgent beh name st.current_data).success = true
        · have hall' : ∀ r ∈ st.goal.results ++ [stepAgent beh name st.current_data],
              r.success = true := by
            intro r hr
            rcases List.mem_append.mp hr with hr | hr
            · exact hall r hr
            · simp at hr
              rw [hr]
              exact hs
          by_cases hp : name = "PlannerAgent" ∧
            (dictLookup (stepAgent beh name st.current_data).data "plan").isSome = true
          · rw [loop_succ_planner beh n st name hag hreg hs hp]
            exact ih _ hall'
          · by_cases hadv : st.goal.plan ≠ [] ∧
              st.goal.current_step < st.goal.plan.length - 1
            · rw [loop_succ_advance beh n st name hag hreg hs hp hadv]
              exact ih _ hall'
            · rw [loop_succ_done beh n st name hag hreg hs hp hadv]
              exact ih _ hall'
        · rw [loop_succ_fail beh n st name hag hreg (by simpa using hs)]
          rw [hag]
          exact Or.inr rfl
      · rw [loop_succ_unknown beh n st name hag (by simpa using hreg)]
        exact Or.inl hall

/-- With no active agent the loop is over, whatever the remaining budget. -/
theorem loop_of_none (beh : Behavior) (fuel : Nat) (st : LoopState)
    (h : st.current_agent = none) : loop beh fuel st = st := by
  cases fuel with
  | zero => rfl
  | succ n => exact loop_succ_none beh n st h

theorem head?_eq_get?_zero (l : List String) : l.head? = l.get? 0 := by
  cases l <;> rfl

/-- Reading back the plan stored by the planner gives the analyzed plan. -/
theorem decodePlan_planner (ctx : Ctx) :
    decodePlan (plannerExecute ctx).data =
      analyzeGoal (strLower (decodeStr ((dictLookup ctx "goal").getD (PyVal.vStr "")))) := rfl

/-- The first loop iteration of a run executes the planner and installs its
plan. -/
theorem loop_init (beh : Behavior) (desc : String) (fuel : Nat) :
    loop beh (fuel + 1) (initState desc) = loop beh fuel (postPlanState desc) := by
  rw [loop_succ_planner beh fuel (initState desc) "PlannerAgent" rfl (by decide) rfl
    ⟨rfl, rfl⟩]
  rfl

/-- `cursorInv` is preserved by the loop. -/
theorem loop_cursorInv (beh : Behavior) :
    ∀ (fuel : Nat) (st : LoopState), cursorInv st → cursorInv (loop beh fuel st) := by
  intro fuel
  induction fuel with
  | zero =>
    intro st h
    simpa [loop_zero] using h
  | succ n ih =>
    intro st h
    obtain ⟨hle, hpl0, hnp⟩ := h
    cases hag : st.current_agent with
    | none =>
      rw [loop_succ_none beh n st hag]
      exact ⟨hle, hpl0, hnp⟩
    | some name =>
      by_cases hreg : registryKeys.contains name = true
      · by_cases hs : (stepAgent beh name st.current_data).success = true
        · by_cases hp : name = "PlannerAgent" ∧
            (dictLookup (stepAgent beh name st.current_data).data "plan").isSome = true
          · rw [loop_succ_planner beh n st name hag hreg hs hp]
            apply ih
            have hname : name = "PlannerAgent" := hp.1
            have hstep0 : st.goal.current_step = 0 := hpl0 (by rw [hag, hname])
            have hplan : decodePlan (stepAgent beh name st.current_data).data =
                analyzeGoal (strLower (decodeStr
                  ((dictLookup st.current_data "goal").getD (PyVal.vStr "")))) := by
              rw [hname]
              exact decodePlan_planner st.current_data
            refine ⟨?_, ?_, ?_⟩
            · show st.goal.current_step ≤
                (decodePlan (stepAgent beh name st.current_data).data).length
              rw [hstep0]
              exact Nat.zero_le _
            · intro _
              exact hstep0
            · show "PlannerAgent" ∉ decodePlan (stepAgent beh name st.current_data).data
              rw [hplan]
              exact planner_not_mem_analyzeGoal _
          · by_cases hadv : st.goal.plan ≠ [] ∧
              st.goal.current_step < st.goal.plan.length - 1
            · rw [loop_succ_advance beh n st name hag hreg hs hp hadv]
              apply ih
              have hlen : 1 ≤ st.goal.plan.length := by
                cases hq : st.goal.plan with
                | nil => exact absurd hq hadv.1
                | cons x xs => simp [hq]
              refine ⟨?_, ?_, ?_⟩
              · show st.goal.current_step + 1 ≤ st.goal.plan.length
                have := hadv.2
                omega
              · intro hc
                have hc' : st.goal.plan.get? (st.goal.current_step + 1) =
                    some "PlannerAgent" := hc
                exact absurd (List.get?_mem hc') hnp
              · exact hnp
            · rw [loop_succ_done beh n st name hag hreg hs hp hadv]
              apply ih
              refine ⟨hle, ?_, hnp⟩
              intro hc
              exact Option.noConfusion hc
        · rw [loop_succ_fail beh n st name hag hreg (by simpa using hs)]
          exact ⟨hle, hpl0, hnp⟩
      · rw [loop_succ_unknown beh n st name hag (by simpa using hreg)]
        exact ⟨hle, hpl0, hnp⟩

/-- Walking the plan from position `i` with every plan handler succeeding
reaches the end of the plan: the active agent clears and one record is
appended per remaining plan entry. -/
theorem loop_walk_success (beh : Behavior) :
    ∀ (fuel : Nat) (st : LoopState) (p : List String) (i : Nat),
      st.goal.plan = p → st.goal.current_step = i →
      st.current_agent = p.get? i → i < p.length →
      (∀ a ∈ p, ∀ c, (beh a c).success = true) →
      (∀ a ∈ p, registryKeys.contains a = true) →
      "PlannerAgent" ∉ p →
      p.length - i ≤ fuel →
      (loop beh fuel st).current_agent = none ∧
      (loop beh fuel st).goal.results.length = st.goal.results.length + (p.length - i) ∧
      (loop beh fuel st).goal.plan = p := by
  intro fuel
  induction fuel with
  | zero =>
    intro st p i _ _ _ hi _ _ _ hfuel
    omega
  | succ n ih =>
    intro st p i hplan hstep hag hi hb hregAll hnp hfuel
    obtain ⟨a, hga⟩ : ∃ a, p.get? i = some a := by
      rw [List.get?_eq_get hi]
      exact ⟨_, rfl⟩
    have ham : a ∈ p := List.get?_mem hga
    have haga : st.current_agent = some a := by rw [hag, hga]
    have haname : a ≠ "PlannerAgent" := fun hcontra => hnp (hcontra ▸ ham)
    have hstepA : stepAgent beh a st.current_data = beh a st.current_data := by
      simp [stepAgent, haname]
    have hs : (stepAgent beh a st.current_data).success = true := by
      rw [hstepA]
      exact hb a ham st.current_data
    have hpneg : ¬(a = "PlannerAgent" ∧
        (dictLookup (stepAgent beh a st.current_data).data "plan").isSome = true) :=
      fun hcontra => haname hcontra.1
    by_cases hmid : i < p.length - 1
    · have hadv : st.goal.plan ≠ [] ∧ st.goal.current_step < st.goal.plan.length - 1 := by
        constructor
        · rw [hplan]
          intro hq
          rw [hq] at hi
          simp at hi
        · rw [hplan, hstep]
          exact hmid
      rw [loop_succ_advance beh n st a haga (hregAll a ham) hs hpneg hadv]
      obtain ⟨h1, h2, h3⟩ := ih { goal := { st.goal with results := st.goal.results ++ [stepAgent beh a st.current_data], current_step := st.goal.current_step + 1 }, current_data := dictUpdate st.current_data (stepAgent beh a st.current_data).data, current_agent := st.goal.plan.get? (st.goal.current_step + 1) } p (i + 1) hplan (by show st.goal.current_step + 1 = i + 1; rw [hstep]) (by show st.goal.plan.get? (st.goal.current_step + 1) = p.get? (i + 1); rw [hplan, hstep]) (by omega) hb hregAll hnp (by omega)
      refine ⟨h1, ?_, h3⟩
      rw [h2]
      simp
      omega
    · have hadv : ¬(st.goal.plan ≠ [] ∧ st.goal.current_step < st.goal.plan.length - 1) := by
        intro hcontra
        rw [hplan, hstep] at hcontra
        omega
      rw [loop_succ_done beh n st a haga (hregAll a ham) hs hpneg hadv]
      rw [loop_of_none beh n _ rfl]
      refine ⟨rfl, ?_, hplan⟩
      show (st.goal.results ++ [stepAgent beh a st.current_data]).length =
        st.goal.results.length + (p.length - i)
      rw [List.length_append]
      show st.goal.results.length + 1 = st.goal.results.length + (p.length - i)
      omega

/-- Walking the plan from position `i ≤ j`, where the handlers before `j`
succeed and the one at `j` fails: the run breaks at `j` with the failing
record last and the active agent still set. -/
theorem loop_walk_fail (beh : Behavior) :
    ∀ (fuel : Nat) (st : LoopState) (p : List String) (i j : Nat) (b : String),
      st.goal.plan = p → st.goal.current_step = i →
      st.current_agent = p.get? i →
      i ≤ j → p.get? j = some b →
      (∀ a ∈ p.take j, ∀ c, (beh a c).success = true) →
      (∀ c, (beh b c).success = false) →
      (∀ a ∈ p, registryKeys.contains a = true) →
      "PlannerAgent" ∉ p →
      j - i + 1 ≤ fuel →
      (loop beh fuel st).goal.results.length = st.goal.results.length + (j - i) + 1 ∧
      ((loop beh fuel st).goal.results.getLast?.map (fun r => r.success)) = some false ∧
      (loop beh fuel st).current_agent.isSome = true := by
  intro fuel
  induction fuel with
  | zero =>
    intro st p i j b _ _ _ _ _ _ _ _ _ hfuel
    omega
  | succ n ih =>
    intro st p i j b hplan hstep hag hij hgb hsucc hfailb hregAll hnp hfuel
    have hj : j < p.length := (List.get?_eq_some.mp hgb).1
    have hi : i < p.length := by omega
    obtain ⟨a, hga⟩ : ∃ a, p.get? i = some a := by
      rw [List.get?_eq_get hi]
      exact ⟨_, rfl⟩
    have ham : a ∈ p := List.get?_mem hga
    have haga : st.current_agent = some a := by rw [hag, hga]
    have haname : a ≠ "PlannerAgent" := fun hcontra => hnp (hcontra ▸ ham)
    have hstepA : stepAgent beh a st.current_data = beh a st.current_data := by
      simp [stepAgent, haname]
    have hpneg : ¬(a = "PlannerAgent" ∧
        (dictLookup (stepAgent beh a st.current_data).data "plan").isSome = true) :=
      fun hcontra => haname hcontra.1
    by_cases hieqj : i = j
    · have hab : a = b := by
        rw [hieqj] at hga
        rw [hga] at hgb
        exact Option.some.inj hgb
      have hfailA : (stepAgent beh a st.current_data).success = false := by
        rw [hstepA, hab]
        exact hfailb st.current_data
      rw [loop_succ_fail beh n st a haga (hregAll a ham) hfailA]
      refine ⟨?_, ?_, ?_⟩
      · show (st.goal.results ++ [stepAgent beh a st.current_data]).length =
          st.goal.results.length + (j - i) + 1
        rw [List.length_append]
        show st.goal.results.length + 1 = st.goal.results.length + (j - i) + 1
        omega
      · show ((st.goal.results ++
          [stepAgent beh a st.current_data]).getLast?.map (fun r => r.success)) = some false
        rw [List.getLast?_concat]
        simp [hfailA]
      · show st.current_agent.isSome = true
        rw [haga]
        rfl
    · have hilt : i < j := by omega
      have hmemtake : a ∈ p.take j := by
        have hq : (p.take j).get? i = some a := by
          rw [List.get?_take hilt]
          exact hga
        exact List.get?_mem hq
      have hs : (stepAgent beh a st.current_data).success = true := by
        rw [hstepA]
        exact hsucc a hmemtake st.current_data
      have hadv : st.goal.plan ≠ [] ∧ st.goal.current_step < st.goal.plan.length - 1 := by
        constructor
        · rw [hplan]
          intro hq
          rw [hq] at hi
          simp at hi
        · rw [hplan, hstep]
          omega
      rw [loop_succ_advance beh n st a haga (hregAll a ham) hs hpneg hadv]
      obtain ⟨h1, h2, h3⟩ := ih { goal := { st.goal with results := st.goal.results ++ [stepAgent beh a st.current_data], current_step := st.goal.current_step + 1 }, current_data := dictUpdate st.current_data (stepAgent beh a st.current_data).data, current_agent := st.goal.plan.get? (st.goal.current_step + 1) } p (i + 1) j b hplan (by show st.goal.current_step + 1 = i + 1; rw [hstep]) (by show st.goal.plan.get? (st.goal.current_step + 1) = p.get? (i + 1); rw [hplan, hstep]) (by omega) hgb hsucc hfailb hregAll hnp (by omega)
      refine ⟨?_, h2, h3⟩
      rw [h1]
      simp
      omega

/-! ## Lemmas about dictionary merge -/

theorem dictUpdate_nil (d : Ctx) : dictUpdate d [] = d := rfl

theorem dictUpdate_cons (d : Ctx) (a : String) (b : PyVal) (rest : Ctx) :
    dictUpdate d ((a, b) :: rest) = dictUpdate (dictSet d a b) rest := rfl

theorem dictLookup_dictSet_self (d : Ctx) (k : String) (v : PyVal) :
    dictLookup (dictSet d k v) k = some v := by
  induction d with
  | nil => simp [dictSet, dictLookup]
  | cons hd rest ih =>
    obtain ⟨k', v'⟩ := hd
    by_cases hk : k' = k
    · simp [dictSet, dictLookup, hk]
    · simp [dictSet, dictLookup, hk, ih]

theorem dictLookup_dictSet_other (d : Ctx) (k k' : String) (v : PyVal) (h : k' ≠ k) :
    dictLookup (dictSet d k v) k' = dictLookup d k' := by
  have hkk : ¬(k = k') := fun hc => h hc.symm
  induction d with
  | nil => simp [dictSet, dictLookup, hkk]
  | cons hd rest ih =>
    obtain ⟨a, b⟩ := hd
    by_cases hak : a = k
    · subst hak
      simp [dictSet, dictLookup, hkk]
    · simp [dictSet, dictLookup, hak, ih]

theorem dictLookup_eq_none_of_not_mem (d : Ctx) (k : String)
    (h : k ∉ d.map Prod.fst) : dictLookup d k = none := by
  induction d with
  | nil => rfl
  | cons hd rest ih =>
    obtain ⟨a, b⟩ := hd
    rw [List.map_cons] at h
    have hka : ¬(a = k) := by
      intro hc
      subst hc
      exact h (List.mem_cons_self _ _)
    have h2 : k ∉ rest.map Prod.fst := by
      intro hc
      exact h (List.mem_cons_of_mem _ hc)
    simp [dictLookup, hka, ih h2]

/-- The merge is shallow and last-write-wins: a key found in the update wins
with exactly the updated value, a key absent from the update keeps the value
it had. -/
theorem dictLookup_dictUpdate (d u : Ctx) (hu : keysNodup u) (k : String) :
    (∀ v, dictLookup u k = some v → dictLookup (dictUpdate d u) k = some v) ∧
    (dictLookup u k = none → dictLookup (dictUpdate d u) k = dictLookup d k) := by
  induction u generalizing d with
  | nil =>
    refine ⟨?_, ?_⟩
    · intro v hv
      exact Option.noConfusion hv
    · intro _
      rfl
  | cons hd rest ih =>
    obtain ⟨a, b⟩ := hd
    have hnodup : keysNodup rest := (List.nodup_cons.mp hu).2
    have hnotmem : a ∉ rest.map Prod.fst := by
      have := (List.nodup_cons.mp hu).1
      simpa using this
    rw [dictUpdate_cons]
    constructor
    · intro v hv
      by_cases hak : a = k
      · subst hak
        have hb : b = v := by
          simpa [dictLookup] using hv
        subst hb
        have hrest : dictLookup rest a = none :=
          dictLookup_eq_none_of_not_mem rest a hnotmem
        rw [(ih (dictSet d a b) hnodup).2 hrest]
        exact dictLookup_dictSet_self d a b
      · have hv' : dictLookup rest k = some v := by
          simpa [dictLookup, hak] using hv
        exact (ih (dictSet d a b) hnodup).1 v hv'
    · intro hnone
      have hak : ¬(a = k) := by
        intro hc
        subst hc
        simp [dictLookup] at hnone
      have hnone' : dictLookup rest k = none := by
        simpa [dictLookup, hak] using hnone
      rw [(ih (dictSet d a b) hnodup).2 hnone']
      exact dictLookup_dictSet_other d a k b (fun hc => hak hc.symm)

/-! ## Claim theorems -/

/-- C8: for every goal text and every `max_steps >= 0` the run terminates
(the loop is a total function of the remaining budget) and appends at most
one record per iteration, so `len(history) <= max_steps` whatever the plan
length or the handlers' outcomes. -/
theorem claim8_step_bound (beh : Behavior) (g : String) (m : Nat) :
    (execute_goal beh g m).results.length ≤ m := by
  show (loop beh m (initState g)).goal.results.length ≤ m
  have h := loop_results_length_le beh m (initState g)
  simpa [initState] using h

/-- C9: at every point of every run the cursor never passes the end of the
plan: it starts at 0 with an empty plan, and every state the loop reaches —
hence also the returned `GoalState` — satisfies `cursor <= len(plan)`. -/
theorem claim9_cursor_invariant (beh : Behavior) (g : String) :
    ((initState g).goal.current_step = 0 ∧ (initState g).goal.plan = []) ∧
    (∀ f : Nat, (loop beh f (initState g)).goal.current_step ≤
      (loop beh f (initState g)).goal.plan.length) ∧
    (∀ m : Nat, (execute_goal beh g m).current_step ≤ (execute_goal beh g m).plan.length) := by
  have hinv : cursorInv (initState g) := by
    refine ⟨Nat.le_refl 0, fun _ => rfl, ?_⟩
    intro hc
    cases hc
  refine ⟨⟨rfl, rfl⟩, ?_, ?_⟩
  · intro f
    exact (loop_cursorInv beh f (initState g) hinv).1
  · intro m
    exact (loop_cursorInv beh m (initState g) hinv).1

/-- C7: the evaluator returns score `succeeded/total × 100` on a non-empty
history, score 0 on an empty history (no division by zero), `satisfied =
false` whenever the run did not reach `COMPLETED`, and on 3 invoked handlers
with 2 successes the score is 200/3 = 66.66… (scores are modelled exactly in
`ℚ`). -/
theorem claim7_evaluator :
    (∀ g : Goal,
      (g.results.isEmpty = true → (evaluate_goal_satisfaction g).satisfaction_score = 0) ∧
      (g.results.isEmpty = false → (evaluate_goal_satisfaction g).satisfaction_score =
        (((g.results.filter (fun r => r.success)).length : ℚ) / (g.results.length : ℚ)) * 100) ∧
      (g.is_complete = false → (evaluate_goal_satisfaction g).goal_satisfied = false)) ∧
    (evaluate_goal_satisfaction demoGoal).satisfaction_score = 200 / 3 ∧
    (evaluate_goal_satisfaction demoGoal).goal_satisfied = false := by
  refine ⟨?_, ?_, rfl⟩
  · intro g
    refine ⟨?_, ?_, ?_⟩
    · intro h
      simp [evaluate_goal_satisfaction, h]
    · intro h
      simp [evaluate_goal_satisfaction, h]
    · intro h
      simp [evaluate_goal_satisfaction, h]
  · simp [evaluate_goal_satisfaction, demoGoal]
    norm_num

/-- C7 witness: the evaluator at the concrete empty and 2-of-3 goals. -/
theorem claim7_witness :
    (evaluate_goal_satisfaction emptyGoal).satisfaction_score = 0 ∧
    (evaluate_goal_satisfaction demoGoal).goal_satisfied = false :=
  ⟨(claim7_evaluator.1 emptyGoal).1 rfl, (claim7_evaluator.1 demoGoal).2.2 rfl⟩

/-- C6: the shared context is seeded with `{"goal": description}`; the merge
after each successful handler invocation is Python `dict.update`: shallow and
last-write-wins (payload keys overwrite wholesale, absent keys keep their
value), and one successful `EXECUTING` iteration replaces the context by
exactly that merge of the old context with the handler's payload. -/
theorem claim6_merge :
    (∀ desc : String, (initState desc).current_data = [("goal", PyVal.vStr desc)]) ∧
    (∀ (d u : Ctx) (k : String), keysNodup u →
      (∀ v, dictLookup u k = some v → dictLookup (dictUpdate d u) k = some v) ∧
      (dictLookup u k = none → dictLookup (dictUpdate d u) k = dictLookup d k)) ∧
    (dictUpdate [("goal", PyVal.vStr "g"), ("a", PyVal.vInt 1)]
        [("a", PyVal.vInt 2), ("b", PyVal.vInt 3)] =
      [("goal", PyVal.vStr "g"), ("a", PyVal.vInt 2), ("b", PyVal.vInt 3)]) ∧
    (∀ (beh : Behavior) (st : LoopState) (n : String),
      st.current_agent = some n → registryKeys.contains n = true →
      n ≠ "PlannerAgent" → (stepAgent beh n st.current_data).success = true →
      (loop beh 1 st).current_data =
        dictUpdate st.current_data (beh n st.current_data).data) := by
  refine ⟨fun _ => rfl, ?_, by decide, ?_⟩
  · intro d u k hu
    exact dictLookup_dictUpdate d u hu k
  · intro beh st n hag hreg hn hs
    have hsA : stepAgent beh n st.current_data = beh n st.current_data := by
      simp [stepAgent, hn]
    have hpneg : ¬(n = "PlannerAgent" ∧
        (dictLookup (stepAgent beh n st.current_data).data "plan").isSome = true) :=
      fun hc => hn hc.1
    by_cases hadv : st.goal.plan ≠ [] ∧ st.goal.current_step < st.goal.plan.length - 1
    · rw [loop_succ_advance beh 0 st n hag hreg hs hpneg hadv, loop_zero, hsA]
    · rw [loop_succ_done beh 0 st n hag hreg hs hpneg hadv, loop_zero, hsA]

/-- C6 witness: the merge at the concrete context/payload of the claim and
one concrete successful iteration. -/
theorem claim6_witness :
    (initState "g").current_data = [("goal", PyVal.vStr "g")] ∧
    dictLookup (dictUpdate [("goal", PyVal.vStr "g"), ("a", PyVal.vInt 1)]
      [("a", PyVal.vInt 2), ("b", PyVal.vInt 3)]) "a" = some (PyVal.vInt 2) ∧
    (loop behPayload 1 mergeDemoState).current_data =
      dictUpdate mergeDemoState.current_data
        (behPayload "NewsAgent" mergeDemoState.current_data).data :=
  ⟨claim6_merge.1 "g",
   (claim6_merge.2.1 [("goal", PyVal.vStr "g"), ("a", PyVal.vInt 1)]
      [("a", PyVal.vInt 2), ("b", PyVal.vInt 3)] "a" (by decide)).1 (PyVal.vInt 2) (by decide),
   claim6_merge.2.2.2 behPayload mergeDemoState "NewsAgent" rfl (by decide)
      (by decide) rfl⟩

/-- C1 counterexample: `goalBtc` has a 3-step plan, yet `run(goalBtc, 1)`
(with handlers that always succeed) stops after one invocation with the
termination flag still `false` — the claim asserted `terminated == true` for
every goal and every `max_steps >= 1`. -/
theorem claim1_counterexample :
    (planOf goalBtc).length = 3 ∧
    (execute_goal behOK goalBtc 1).results.length = 1 ∧
    (execute_goal behOK goalBtc 1).is_complete = false := by
  decide

/-- C1 amended: the run always stops, but the code's flag (`is_complete`) is
true only when the machine reached `COMPLETED`: whenever some invoked handler
reported failure the flag is `false`, and with `max_steps = 1` and a 3-step
plan the run stops after exactly one invocation (the planner's) with the flag
`false` and `len(history) == 1`. -/
theorem claim1_amended :
    (∀ (beh : Behavior) (g : String) (m : Nat),
      (∃ r ∈ (execute_goal beh g m).results, r.success = false) →
      (execute_goal beh g m).is_complete = false) ∧
    (∀ beh : Behavior,
      (execute_goal beh goalBtc 1).results.length = 1 ∧
      (execute_goal beh goalBtc 1).is_complete = false) := by
  constructor
  · intro beh g m hfail
    obtain ⟨r, hr, hrf⟩ := hfail
    have hinit : ∀ x ∈ (initState g).goal.results, x.success = true := by
      intro x hx
      cases hx
    rcases loop_failure_agent beh m (initState g) hinit with hall | hsome
    · have : r.success = true := hall r hr
      rw [hrf] at this
      cases this
    · show (loop beh m (initState g)).current_agent.isNone = false
      cases hopt : (loop beh m (initState g)).current_agent with
      | none =>
        rw [hopt] at hsome
        cases hsome
      | some x => rfl
  · intro beh
    have h10 : loop beh 1 (initState goalBtc) = postPlanState goalBtc := by
      rw [loop_init beh goalBtc 0]
      rfl
    constructor
    · show (loop beh 1 (initState goalBtc)).goal.results.length = 1
      rw [h10]
      rfl
    · show (loop beh 1 (initState goalBtc)).current_agent.isNone = false
      rw [h10]
      show ((planOf goalBtc).head?).isNone = false
      decide

/-- C1 witness: a run in which the news handler fails, hence the returned
flag is `false`. -/
theorem claim1_witness :
    (∃ r ∈ (execute_goal behFail "hello" 10).results, r.success = false) ∧
    (execute_goal behFail "hello" 10).is_complete = false :=
  ⟨by decide, claim1_amended.1 behFail "hello" 10 (by decide)⟩

/-- C2 counterexample: for `"hello"` (plan length 2) with every handler
succeeding and ample budget, the run reaches `COMPLETED` but records 3
results, not `len(plan) = 2` — the planner's own record is also in the
history. -/
theorem claim2_counterexample :
    (planOf "hello").length = 2 ∧
    (execute_goal behOK "hello" 10).results.length = 3 ∧
    ¬((execute_goal behOK "hello" 10).results.length = (planOf "hello").length) := by
  decide

/-- C2 amended: if every plan handler reports success and
`max_steps >= len(plan) + 1`, the run reaches `COMPLETED`
(`is_complete = true`) and `len(history) = len(plan) + 1`: one record for the
planner invocation plus exactly one per plan handler. -/
theorem claim2_amended (beh : Behavior) (g : String) (m : Nat)
    (hb : ∀ a ∈ planOf g, ∀ c, (beh a c).success = true)
    (hm : (planOf g).length + 1 ≤ m) :
    (execute_goal beh g m).is_complete = true ∧
    (execute_goal beh g m).results.length = (planOf g).length + 1 := by
  cases m with
  | zero => omega
  | succ n =>
    have h1 := loop_init beh g n
    obtain ⟨ha, hlen, _⟩ := loop_walk_success beh n (postPlanState g) (planOf g) 0
      rfl rfl
      (by show (planOf g).head? = (planOf g).get? 0
          exact head?_eq_get?_zero (planOf g))
      (List.length_pos.mpr (analyzeGoal_ne_nil _))
      hb
      (fun a hma => analyzeGoal_mem_registry _ a hma)
      (planner_not_mem_analyzeGoal _)
      (by omega)
    constructor
    · show (loop beh (n + 1) (initState g)).current_agent.isNone = true
      rw [h1, ha]
      rfl
    · show (loop beh (n + 1) (initState g)).goal.results.length = (planOf g).length + 1
      rw [h1, hlen]
      show (postPlanState g).goal.results.length + ((planOf g).length - 0) =
        (planOf g).length + 1
      simp [postPlanState]
      omega
  
/-- C2 witness: the all-success run on `"hello"`. -/
theorem claim2_witness :
    (execute_goal behOK "hello" 10).is_complete = true ∧
    (execute_goal behOK "hello" 10).results.length = (planOf "hello").length + 1 :=
  claim2_amended behOK "hello" 10 (fun _ _ _ => rfl) (by decide)

/-- C3 counterexample: for `"hello"` (plan of length 2) whose first plan
handler (the news handler, k = 1) fails, the history holds 2 records (planner
plus the failing handler), not `k = 1` as claimed. -/
theorem claim3_counterexample :
    (planOf "hello").length = 2 ∧
    (execute_goal behFailNews "hello" 10).results.length = 2 ∧
    ¬((execute_goal behFailNews "hello" 10).results.length = 1) := by
  decide

/-- C3 amended: if the plan handler at 0-based position `j` reports failure,
all earlier plan handlers succeed, and the budget covers the failure
(`max_steps >= j + 2`), then `len(history) = j + 2` (the planner's record
plus the `j+1` handler records), the failing record is the last element of
the history, no handler beyond position `j` is ever invoked, and the run is
marked incomplete. -/
theorem claim3_amended (beh : Behavior) (g : String) (m j : Nat) (b : String)
    (hgb : (planOf g).get? j = some b)
    (hsucc : ∀ a ∈ (planOf g).take j, ∀ c, (beh a c).success = true)
    (hfail : ∀ c, (beh b c).success = false)
    (hm : j + 2 ≤ m) :
    (execute_goal beh g m).results.length = j + 2 ∧
    ((execute_goal beh g m).results.getLast?.map (fun r => r.success)) = some false ∧
    (execute_goal beh g m).is_complete = false := by
  cases m with
  | zero => omega
  | succ n =>
    have h1 := loop_init beh g n
    obtain ⟨hlen, hlast, hsome⟩ := loop_walk_fail beh n (postPlanState g) (planOf g) 0 j b
      rfl rfl
      (by show (planOf g).head? = (planOf g).get? 0
          exact head?_eq_get?_zero (planOf g))
      (Nat.zero_le j) hgb hsucc hfail
      (fun a hma => analyzeGoal_mem_registry _ a hma)
      (planner_not_mem_analyzeGoal _)
      (by omega)
    refine ⟨?_, ?_, ?_⟩
    · show (loop beh (n + 1) (initState g)).goal.results.length = j + 2
      rw [h1, hlen]
      show (postPlanState g).goal.results.length + (j - 0) + 1 = j + 2
      simp [postPlanState]
      omega
    · show ((loop beh (n + 1) (initState g)).goal.results.getLast?.map
        (fun r => r.success)) = some false
      rw [h1]
      exact hlast
    · show (loop beh (n + 1) (initState g)).current_agent.isNone = false
      rw [h1]
      cases hopt : (loop beh n (postPlanState g)).current_agent with
      | none =>
        rw [hopt] at hsome
        cases hsome
      | some x => rfl

/-- C3 witness: the news handler (position 0 of the plan of `"hello"`) fails;
the run records the planner and the failure, nothing more. -/
theorem claim3_witness :
    (execute_goal behFailNews "hello" 10).results.length = 0 + 2 ∧
    ((execute_goal behFailNews "hello" 10).results.getLast?.map
      (fun r => r.success)) = some false ∧
    (execute_goal behFailNews "hello" 10).is_complete = false :=
  claim3_amended behFailNews "hello" 10 0 "NewsAgent" (by decide)
    (fun a ha _ => absurd ha (List.not_mem_nil a)) (fun _ => rfl) (by decide)

/-- C4 counterexample: `"summarize"` matches none of the four domain keyword
sets, yet its plan is `["SummarizeAgent"]`, not the default fallback — the
summarization keywords bypass the fallback. -/
theorem claim4_counterexample :
    (matchesLaunch (strLower "summarize") = false ∧
     matchesWeather (strLower "summarize") = false ∧
     matchesNews (strLower "summarize") = false ∧
     matchesCrypto (strLower "summarize") = false) ∧
    ¬(planOf "summarize" = ["NewsAgent", "SummarizeAgent"]) := by
  decide

/-- C4 amended: for every goal text matching none of the four domain keyword
sets *and none of the summarization keywords*, the plan is exactly the
default fallback `[news handler, summarize handler]`; and the planner never
returns an empty plan for any input. -/
theorem claim4_amended (g : String) :
    ((matchesLaunch (strLower g) = false) → (matchesWeather (strLower g) = false) →
     (matchesNews (strLower g) = false) → (matchesCrypto (strLower g) = false) →
     (matchesSummarize (strLower g) = false) →
     planOf g = ["NewsAgent", "SummarizeAgent"]) ∧
    planOf g ≠ [] := by
  constructor
  · intro h1 h2 h3 h4 h5
    show analyzeGoal (strLower g) = ["NewsAgent", "SummarizeAgent"]
    have hd : domainPlan (strLower g) = [] := by
      simp [domainPlan, h1, h2, h3, h4]
    rw [analyzeGoal_eq, hd]
    simp [h5]
  · exact analyzeGoal_ne_nil (strLower g)

/-- C4 witness: `"hello"` matches nothing and gets the default plan. -/
theorem claim4_witness :
    matchesLaunch (strLower "hello") = false ∧
    planOf "hello" = ["NewsAgent", "SummarizeAgent"] ∧
    planOf "hello" ≠ [] :=
  ⟨by decide,
   (claim4_amended "hello").1 (by decide) (by decide) (by decide) (by decide) (by decide),
   (claim4_amended "hello").2⟩

/-- C5: a goal text matching two or more domains is planned as the matched
domain handlers in the fixed priority order launch, weather, news, market
(independent of keyword positions in the text), with the summarize handler
appended last; in particular
`plan("check bitcoin price and get related news") =
[NewsAgent, CryptoAgent, SummarizeAgent]`. -/
theorem claim5_priority :
    (∀ g : String, 2 ≤ (domainPlan (strLower g)).length →
      planOf g = domainPlan (strLower g) ++ ["SummarizeAgent"]) ∧
    planOf goalBtc = ["NewsAgent", "CryptoAgent", "SummarizeAgent"] := by
  constructor
  · intro g h2
    show analyzeGoal (strLower g) = domainPlan (strLower g) ++ ["SummarizeAgent"]
    rw [analyzeGoal_eq]
    have hgt : ((domainPlan (strLower g)).length > 1 ||
        matchesSummarize (strLower g)) = true := by
      rw [Bool.or_eq_true]
      exact Or.inl (decide_eq_true (by omega))
    rw [if_pos hgt, if_neg (by simp)]
  · decide

/-- C5 witness: the concrete multi-domain goal of the claim. -/
theorem claim5_witness :
    2 ≤ (domainPlan (strLower goalBtc)).length ∧
    planOf goalBtc = domainPlan (strLower goalBtc) ++ ["SummarizeAgent"] :=
  ⟨by decide, claim5_priority.1 goalBtc (by decide)⟩

/-- C10: keyword matching is substring containment on the lower-cased goal
text, not whole-word matching: any text containing `"delayed"` selects the
weather handler (via `"delay"`), any text containing `"updated"` selects the
news handler (via `"update"`). -/
theorem claim10_substring (s : String) :
    (strContains s "delayed" = true → "WeatherAgent" ∈ planOf s) ∧
    (strContains s "updated" = true → "NewsAgent" ∈ planOf s) := by
  constructor
  · intro h
    have h2 : listContains "delay".data (strLower s).data = true :=
      listContains_lower s "delayed".data "delay".data ['e', 'd'] (by decide) h
    have hw : matchesWeather (strLower s) = true := by
      simp only [matchesWeather, List.any_eq_true]
      exact ⟨"delay", by simp, h2⟩
    have hmem : "WeatherAgent" ∈ domainPlan (strLower s) := by
      simp [domainPlan, hw]
    exact mem_analyzeGoal_of_mem_domainPlan (strLower s) _ hmem
  · intro h
    have h2 : listContains "update".data (strLower s).data = true :=
      listContains_lower s "updated".data "update".data ['d'] (by decide) h
    have hn : matchesNews (strLower s) = true := by
      simp only [matchesNews, List.any_eq_true]
      exact ⟨"update", by simp, h2⟩
    have hmem : "NewsAgent" ∈ domainPlan (strLower s) := by
      simp [domainPlan, hn]
    exact mem_analyzeGoal_of_mem_domainPlan (strLower s) _ hmem

/-- C10 witness: a text with both over-matching words. -/
theorem claim10_witness :
    strContains "delayed updated" "delayed" = true ∧
    "WeatherAgent" ∈ planOf "delayed updated" ∧
    strContains "delayed updated" "updated" = true ∧
    "NewsAgent" ∈ planOf "delayed updated" :=
  ⟨by decide, (claim10_substring "delayed updated").1 (by decide),
   by decide, (claim10_substring "delayed updated").2 (by decide)⟩

end MultiAgent